import Mathlib

/-!
Verification of the substrate contracts wasm boundary layer.

The development shallowly embeds the region-transfer protocol of
frame/contracts/src/wasm/memory.rs and the data types of
frame/contracts/src/wasm/cosmwasm.rs.

Guest linear memory is modelled as a list of byte values (natural numbers
below 256).  Machine integers (u32, usize) are modelled as natural numbers
with explicit reduction modulo 2^32 exactly where the source casts.
Fallible operations return Except.
-/

namespace Substrate

/-- Error values: one constructor per distinct DispatchError message produced
by the embedded code. -/
inductive DispatchError
  /-- message: cannot read region -/
  | cannotReadRegion
  /-- message: region too big -/
  | regionTooBig
  /-- message: could not extract region (source spelling uses a contraction) -/
  | couldNotExtractRegion
  /-- message: memory region too small -/
  | memoryRegionTooSmall
  /-- message: zero region -/
  | zeroRegion
  /-- message: region length exceeds capacity -/
  | regionLengthExceedsCapacity
  /-- message: region out of range -/
  | regionOutOfRange
  /-- message: invalid base64 -/
  | invalidBase64
  /-- message: length mismatch -/
  | lengthMismatch
  deriving DecidableEq, Repr

/-- Region: a fixed-layout descriptor of data allocated in wasm linear
memory, three u32 fields in source order offset, capacity, length. -/
structure Region where
  offset : Nat
  capacity : Nat
  length : Nat
  deriving DecidableEq, Repr

/-- Modelled from the spec: the Memory Accessor contract get operation.
Copies len bytes starting at ptr; fails if the range is out of bounds.
The engine implementation lives outside src, only its trait contract does. -/
def memGet (mem : List Nat) (ptr len : Nat) : Option (List Nat) :=
  if ptr + len ≤ mem.length then some ((mem.drop ptr).take len) else none

/-- Modelled from the spec: the Memory Accessor contract set operation.
Writes the data at ptr; fails, without a partial write, if out of bounds. -/
def memSet (mem : List Nat) (ptr : Nat) (data : List Nat) : Option (List Nat) :=
  if ptr + data.length ≤ mem.length then
    some (mem.take ptr ++ data ++ mem.drop (ptr + data.length))
  else none

/-- Little-endian 32-bit decode of four byte positions of a list. -/
def le32At (bs : List Nat) (i : Nat) : Nat :=
  bs.getD i 0 + 256 * bs.getD (i + 1) 0 + 65536 * bs.getD (i + 2) 0 +
    16777216 * bs.getD (i + 3) 0

/-- Little-endian 32-bit encode into four bytes. -/
def le32Enc (n : Nat) : List Nat :=
  [n % 256, n / 256 % 256, n / 65536 % 256, n / 16777216 % 256]

/-- Modelled from the spec: the fixed 12-byte Region layout, three
consecutive little-endian u32 values in the order offset, capacity, length. -/
def decodeRegion (bs : List Nat) : Region :=
  { offset := le32At bs 0, capacity := le32At bs 4, length := le32At bs 8 }

/-- Modelled from the spec: encoding of a Region in its 12-byte layout. -/
def encodeRegion (r : Region) : List Nat :=
  le32Enc r.offset ++ le32Enc r.capacity ++ le32Enc r.length

/-- Reads in a Region at ptr in wasm memory and returns a copy of it
(memory.rs get_region; typed_get is modelled from the spec layout). -/
def get_region (mem : List Nat) (ptr : Nat) : Except DispatchError Region :=
  match memGet mem ptr 12 with
  | some bs => Except.ok (decodeRegion bs)
  | none => Except.error DispatchError.cannotReadRegion

/-- Overrides a Region at ptr in wasm memory with data
(memory.rs set_region; typed_set is modelled from the spec layout). -/
def set_region (mem : List Nat) (ptr : Nat) (r : Region) :
    Except DispatchError (List Nat) :=
  match memSet mem ptr (encodeRegion r) with
  | some m2 => Except.ok m2
  | none => Except.error DispatchError.cannotReadRegion

/-- Performs plausibility checks in the given Region
(memory.rs validate_region).  u32::MAX is 4294967295. -/
def validate_region (r : Region) : Except DispatchError Unit :=
  if r.offset = 0 then
    Except.error DispatchError.zeroRegion
  else if r.length > r.capacity then
    Except.error DispatchError.regionLengthExceedsCapacity
  else if r.capacity > 4294967295 - r.offset then
    Except.error DispatchError.regionOutOfRange
  else
    Except.ok ()

/-- memory.rs read_region.  The source compares region.length, a u32,
against max_length as u32: the usize argument is truncated modulo 2^32. -/
def read_region (mem : List Nat) (ptr max_length : Nat) :
    Except DispatchError (List Nat) :=
  match get_region mem ptr with
  | Except.error e => Except.error e
  | Except.ok region =>
    if region.length > max_length % 4294967296 then
      Except.error DispatchError.regionTooBig
    else
      match memGet mem region.offset region.length with
      | some data => Except.ok data
      | none => Except.error DispatchError.couldNotExtractRegion

/-- memory.rs write_region, with the mutation of guest memory made explicit:
the second component is the memory after the call (unchanged on error).
data.len() is cast to u32 when stored into the length field. -/
def write_region (mem : List Nat) (ptr : Nat) (data : List Nat) :
    Except DispatchError Unit × List Nat :=
  match get_region mem ptr with
  | Except.error e => (Except.error e, mem)
  | Except.ok region =>
    if data.length > region.capacity then
      (Except.error DispatchError.memoryRegionTooSmall, mem)
    else
      match memSet mem region.offset data with
      | none => (Except.error DispatchError.couldNotExtractRegion, mem)
      | some mem1 =>
        match set_region mem1 ptr
            { region with length := data.length % 4294967296 } with
        | Except.ok mem2 => (Except.ok (), mem2)
        | Except.error e => (Except.error e, mem1)

/-- One access performed against the Memory Accessor: a get (read) or a
set (write) of len bytes at ptr. -/
inductive MemAccess
  | get (ptr len : Nat)
  | set (ptr len : Nat)
  deriving DecidableEq, Repr

/-- Whether an access is a read. -/
def MemAccess.isGet : MemAccess → Bool
  | MemAccess.get _ _ => true
  | MemAccess.set _ _ => false

/-- Instrumented read_region: same control flow, also returns the sequence
of Memory Accessor calls performed, in order. -/
def read_region_tr (mem : List Nat) (ptr max_length : Nat) :
    Except DispatchError (List Nat) × List MemAccess :=
  match memGet mem ptr 12 with
  | none => (Except.error DispatchError.cannotReadRegion, [MemAccess.get ptr 12])
  | some bs =>
    let region := decodeRegion bs
    if region.length > max_length % 4294967296 then
      (Except.error DispatchError.regionTooBig, [MemAccess.get ptr 12])
    else
      match memGet mem region.offset region.length with
      | some data =>
        (Except.ok data, [MemAccess.get ptr 12, MemAccess.get region.offset region.length])
      | none =>
        (Except.error DispatchError.couldNotExtractRegion,
          [MemAccess.get ptr 12, MemAccess.get region.offset region.length])

/-- Instrumented write_region: result, final memory, and the sequence of
Memory Accessor calls performed, in order. -/
def write_region_tr (mem : List Nat) (ptr : Nat) (data : List Nat) :
    (Except DispatchError Unit × List Nat) × List MemAccess :=
  match memGet mem ptr 12 with
  | none => ((Except.error DispatchError.cannotReadRegion, mem), [MemAccess.get ptr 12])
  | some bs =>
    let region := decodeRegion bs
    if data.length > region.capacity then
      ((Except.error DispatchError.memoryRegionTooSmall, mem), [MemAccess.get ptr 12])
    else
      match memSet mem region.offset data with
      | none =>
        ((Except.error DispatchError.couldNotExtractRegion, mem),
          [MemAccess.get ptr 12, MemAccess.set region.offset data.length])
      | some mem1 =>
        match memSet mem1 ptr
            (encodeRegion { region with length := data.length % 4294967296 }) with
        | some mem2 =>
          ((Except.ok (), mem2),
            [MemAccess.get ptr 12, MemAccess.set region.offset data.length,
              MemAccess.set ptr 12])
        | none =>
          ((Except.error DispatchError.cannotReadRegion, mem1),
            [MemAccess.get ptr 12, MemAccess.set region.offset data.length,
              MemAccess.set ptr 12])

/-- All entries of a memory are byte values. -/
def Mem8 (mem : List Nat) : Prop := ∀ x ∈ mem, x < 256

/-- The errors produced by validate_region (the RegionInvalid family). -/
def isValidationError : DispatchError → Bool
  | DispatchError.zeroRegion => true
  | DispatchError.regionLengthExceedsCapacity => true
  | DispatchError.regionOutOfRange => true
  | _ => false

/-! ## cosmwasm.rs data types

Text is modelled as lists of character codes (ASCII for the base64
alphabet); bytes as natural numbers below 256. -/

/-- Binary is a wrapper around a byte vector (cosmwasm.rs Binary). -/
structure Binary where
  bytes : List Nat
  deriving DecidableEq, Repr

/-- The standard base64 alphabet: the character code of sextet s.
Matches the table used by the base64 crate (A-Z, a-z, 0-9, plus, slash). -/
def b64Code (s : Nat) : Nat :=
  if s < 26 then 65 + s
  else if s < 52 then 97 + (s - 26)
  else if s < 62 then 48 + (s - 52)
  else if s = 62 then 43
  else 47

/-- Inverse alphabet lookup: character code to sextet, none when the code
is not in the alphabet (the pad code 61 is not in the alphabet). -/
def b64DecCode (c : Nat) : Option Nat :=
  if 65 ≤ c ∧ c ≤ 90 then some (c - 65)
  else if 97 ≤ c ∧ c ≤ 122 then some (26 + (c - 97))
  else if 48 ≤ c ∧ c ≤ 57 then some (52 + (c - 48))
  else if c = 43 then some 62
  else if c = 47 then some 63
  else none

/-- Standard base64 encoding with padding (base64 crate encode): bytes in
groups of three become four alphabet codes; a final group of two or one
byte is padded with one or two pad codes 61. -/
def b64Encode : List Nat → List Nat
  | a :: b :: c :: rest =>
    b64Code (a / 4) :: b64Code (a % 4 * 16 + b / 16) ::
      b64Code (b % 16 * 4 + c / 64) :: b64Code (c % 64) :: b64Encode rest
  | [a, b] => [b64Code (a / 4), b64Code (a % 4 * 16 + b / 16), b64Code (b % 16 * 4), 61]
  | [a] => [b64Code (a / 4), b64Code (a % 4 * 16), 61, 61]
  | [] => []

/-- Standard base64 decoding with mandatory canonical padding (base64 crate
decode with the default strict configuration): the input is consumed in
groups of four codes, padding may occur only in the final group, and the
unused trailing bits of a padded final group must be zero. -/
def b64Decode : List Nat → Option (List Nat)
  | [] => some []
  | c1 :: c2 :: c3 :: c4 :: rest =>
    match b64DecCode c1, b64DecCode c2 with
    | some s1, some s2 =>
      if c3 = 61 then
        if c4 = 61 ∧ rest = [] then
          if s2 % 16 = 0 then some [s1 * 4 + s2 / 16] else none
        else none
      else
        match b64DecCode c3 with
        | some s3 =>
          if c4 = 61 then
            if rest = [] then
              if s3 % 4 = 0 then
                some [s1 * 4 + s2 / 16, s2 % 16 * 16 + s3 / 4]
              else none
            else none
          else
            match b64DecCode c4 with
            | some s4 =>
              match b64Decode rest with
              | some tl =>
                some ((s1 * 4 + s2 / 16) :: (s2 % 16 * 16 + s3 / 4) ::
                  (s3 % 4 * 64 + s4) :: tl)
              | none => none
            | none => none
        | none => none
    | _, _ => none
  | _ => none

/-- cosmwasm.rs Binary.from_base64: take an untrusted string and decode it
into bytes; fails if it is not valid base64. -/
def Binary.from_base64 (encoded : List Nat) : Except DispatchError Binary :=
  match b64Decode encoded with
  | some bs => Except.ok { bytes := bs }
  | none => Except.error DispatchError.invalidBase64

/-- cosmwasm.rs Binary.to_base64: encode to a base64 string in normalized
form with trailing padding when needed. -/
def Binary.to_base64 (b : Binary) : List Nat :=
  b64Encode b.bytes

/-- Rust copy_from_slice semantics on equal-length slices: the destination
becomes the source (the guard in to_array ensures equal lengths). -/
def copyFromSlice (src dst : List Nat) : List Nat :=
  src.take dst.length ++ dst.drop src.length

/-- cosmwasm.rs Binary.to_array with compile-time length n: length check,
then a zero-initialized array filled by copy_from_slice. -/
def Binary.to_array (b : Binary) (n : Nat) : Except DispatchError (List Nat) :=
  if b.bytes.length ≠ n then
    Except.error DispatchError.lengthMismatch
  else
    Except.ok (copyFromSlice b.bytes (List.replicate n 0))

/-- Addr: a human readable address, a wrapped string (cosmwasm.rs Addr). -/
structure Addr where
  inner : String
  deriving DecidableEq, Repr

/-- cosmwasm.rs Addr.unchecked: wraps the input without checking validity. -/
def Addr.unchecked (input : String) : Addr :=
  { inner := input }

/-- cosmwasm.rs Addr.as_str. -/
def Addr.as_str (a : Addr) : String :=
  a.inner

instance (mem : List Nat) : Decidable (Mem8 mem) := by
  unfold Mem8; infer_instance

/-- The instrumented read agrees with read_region on the result. -/
theorem memGet_eq_some {mem : List Nat} {p n : Nat} (h : p + n ≤ mem.length) :
    memGet mem p n = some ((mem.drop p).take n) := by
  unfold memGet
  simp [h]

theorem memGet_some_iff {mem : List Nat} {p n : Nat} {bs : List Nat} :
    memGet mem p n = some bs ↔ p + n ≤ mem.length ∧ bs = (mem.drop p).take n := by
  unfold memGet
  split <;> rename_i hle
  · simp only [Option.some.injEq]
    exact ⟨fun h => ⟨hle, h.symm⟩, fun h => h.2.symm⟩
  · simp only [reduceCtorEq, false_iff, not_and]
    intro h
    exact absurd h hle

theorem memSet_some_iff {mem : List Nat} {p : Nat} {d m2 : List Nat} :
    memSet mem p d = some m2 ↔
      p + d.length ≤ mem.length ∧
        m2 = mem.take p ++ d ++ mem.drop (p + d.length) := by
  unfold memSet
  split <;> rename_i hle
  · simp only [Option.some.injEq]
    exact ⟨fun h => ⟨hle, h.symm⟩, fun h => h.2.symm⟩
  · simp only [reduceCtorEq, false_iff, not_and]
    intro h
    exact absurd h hle

theorem memSet_length {mem : List Nat} {p : Nat} {d m2 : List Nat}
    (h : memSet mem p d = some m2) : m2.length = mem.length := by
  obtain ⟨hb, rfl⟩ := memSet_some_iff.mp h
  simp only [List.length_append, List.length_take, List.length_drop]
  omega

theorem memSet_read_back {mem : List Nat} {p : Nat} {d m2 : List Nat}
    (h : memSet mem p d = some m2) : (m2.drop p).take d.length = d := by
  obtain ⟨hb, rfl⟩ := memSet_some_iff.mp h
  rw [List.append_assoc]
  have hlen : (mem.take p).length = p := by
    simp only [List.length_take]; omega
  rw [List.drop_left' hlen, List.take_left' rfl]

theorem memSet_getElem?_outside {mem : List Nat} {p : Nat} {d m2 : List Nat}
    (h : memSet mem p d = some m2) {i : Nat}
    (hi : i < p ∨ p + d.length ≤ i) : m2[i]? = mem[i]? := by
  obtain ⟨hb, rfl⟩ := memSet_some_iff.mp h
  have hlen : (mem.take p).length = p := by
    simp only [List.length_take]; omega
  rcases hi with hi | hi
  · rw [List.append_assoc, List.getElem?_append_left (by omega)]
    rw [List.getElem?_take]
    simp [hi]
  · rw [List.append_assoc, List.getElem?_append_right (by omega), hlen]
    rw [List.getElem?_append_right (by omega), List.getElem?_drop]
    congr 1
    omega

theorem memSet_getElem?_inside {mem : List Nat} {p : Nat} {d m2 : List Nat}
    (h : memSet mem p d = some m2) {i : Nat} (hi : i < d.length) :
    m2[p + i]? = d[i]? := by
  obtain ⟨hb, rfl⟩ := memSet_some_iff.mp h
  have hlen : (mem.take p).length = p := by
    simp only [List.length_take]; omega
  rw [List.append_assoc, List.getElem?_append_right (by omega), hlen]
  rw [List.getElem?_append_left (by omega)]
  congr 1
  omega

theorem get_region_some_iff {mem : List Nat} {ptr : Nat} {r : Region} :
    get_region mem ptr = Except.ok r ↔
      ptr + 12 ≤ mem.length ∧ r = decodeRegion ((mem.drop ptr).take 12) := by
  unfold get_region
  cases h : memGet mem ptr 12 with
  | some bs =>
    obtain ⟨hb, rfl⟩ := memGet_some_iff.mp h
    simp [hb, eq_comm]
  | none =>
    simp only [reduceCtorEq, false_iff, not_and]
    intro hle
    rw [memGet_eq_some hle] at h
    cases h

theorem getD_lt_of_bytes {bs : List Nat} (hb : ∀ x ∈ bs, x < 256) (i : Nat) :
    bs.getD i 0 < 256 := by
  rw [List.getD_eq_getElem?_getD]
  cases h : bs[i]? with
  | none => simp
  | some x =>
    have := List.getElem?_mem h
    simp only [Option.getD_some]
    exact hb x this

theorem le32At_lt {bs : List Nat} (hb : ∀ x ∈ bs, x < 256) (i : Nat) :
    le32At bs i < 4294967296 := by
  unfold le32At
  have h0 := getD_lt_of_bytes hb i
  have h1 := getD_lt_of_bytes hb (i + 1)
  have h2 := getD_lt_of_bytes hb (i + 2)
  have h3 := getD_lt_of_bytes hb (i + 3)
  omega

theorem get_region_fields_lt {mem : List Nat} {ptr : Nat} {r : Region}
    (hmem : Mem8 mem) (h : get_region mem ptr = Except.ok r) :
    r.offset < 4294967296 ∧ r.capacity < 4294967296 ∧ r.length < 4294967296 := by
  obtain ⟨hb, rfl⟩ := get_region_some_iff.mp h
  have hbytes : ∀ x ∈ (mem.drop ptr).take 12, x < 256 := by
    intro x hx
    exact hmem x (List.mem_of_mem_drop (List.mem_of_mem_take hx))
  exact ⟨le32At_lt hbytes 0, le32At_lt hbytes 4, le32At_lt hbytes 8⟩

theorem encodeRegion_length (r : Region) : (encodeRegion r).length = 12 := by
  rfl

theorem decode_encode_region {r : Region} (h1 : r.offset < 4294967296)
    (h2 : r.capacity < 4294967296) (h3 : r.length < 4294967296) :
    decodeRegion (encodeRegion r) = r := by
  obtain ⟨o, c, l⟩ := r
  simp only at h1 h2 h3
  unfold decodeRegion encodeRegion le32At le32Enc
  simp only [List.cons_append, List.nil_append]
  simp [List.getD, Region.mk.injEq]
  have do1 : o / 256 / 256 = o / 65536 := by rw [Nat.div_div_eq_div_mul]
  have do2 : o / 65536 / 256 = o / 16777216 := by rw [Nat.div_div_eq_div_mul]
  have dc1 : c / 256 / 256 = c / 65536 := by rw [Nat.div_div_eq_div_mul]
  have dc2 : c / 65536 / 256 = c / 16777216 := by rw [Nat.div_div_eq_div_mul]
  have dl1 : l / 256 / 256 = l / 65536 := by rw [Nat.div_div_eq_div_mul]
  have dl2 : l / 65536 / 256 = l / 16777216 := by rw [Nat.div_div_eq_div_mul]
  refine ⟨?_, ?_, ?_⟩ <;> omega

theorem read_region_tr_fst (mem : List Nat) (ptr maxl : Nat) :
    (read_region_tr mem ptr maxl).1 = read_region mem ptr maxl := by
  unfold read_region_tr read_region get_region
  cases h : memGet mem ptr 12 with
  | none => rfl
  | some bs =>
    simp only
    split
    · rfl
    · cases memGet mem (decodeRegion bs).offset (decodeRegion bs).length <;> rfl

/-- The instrumented write agrees with write_region on result and memory. -/
theorem write_region_tr_fst (mem : List Nat) (ptr : Nat) (data : List Nat) :
    (write_region_tr mem ptr data).1 = write_region mem ptr data := by
  unfold write_region_tr write_region get_region set_region
  cases h : memGet mem ptr 12 with
  | none => rfl
  | some bs =>
    simp only
    split
    · rfl
    · cases memSet mem (decodeRegion bs).offset data with
      | none => rfl
      | some mem1 =>
        simp only
        cases memSet mem1 ptr
            (encodeRegion { decodeRegion bs with length := data.length % 4294967296 }) <;> rfl

theorem get_region_error_eq {mem : List Nat} {ptr : Nat} {e : DispatchError}
    (h : get_region mem ptr = Except.error e) :
    e = DispatchError.cannotReadRegion := by
  unfold get_region at h
  cases h1 : memGet mem ptr 12 <;> rw [h1] at h <;> simp_all

theorem read_region_error_cases {mem : List Nat} {ptr maxl : Nat} {e : DispatchError}
    (h : read_region mem ptr maxl = Except.error e) :
    e = DispatchError.cannotReadRegion ∨ e = DispatchError.regionTooBig ∨
      e = DispatchError.couldNotExtractRegion := by
  unfold read_region at h
  cases hg : get_region mem ptr <;> rw [hg] at h
  case error e2 =>
    simp only [Except.error.injEq] at h
    exact Or.inl (h ▸ get_region_error_eq hg)
  case ok region =>
    simp only at h
    split at h
    · simp only [Except.error.injEq] at h
      exact Or.inr (Or.inl h.symm)
    · cases h2 : memGet mem region.offset region.length <;> rw [h2] at h <;>
        simp_all

theorem write_region_error_cases {mem : List Nat} {ptr : Nat} {data : List Nat}
    {e : DispatchError} (h : (write_region mem ptr data).1 = Except.error e) :
    e = DispatchError.cannotReadRegion ∨ e = DispatchError.memoryRegionTooSmall ∨
      e = DispatchError.couldNotExtractRegion := by
  unfold write_region at h
  cases hg : get_region mem ptr <;> rw [hg] at h
  case error e2 =>
    simp only [Except.error.injEq] at h
    exact Or.inl (h ▸ get_region_error_eq hg)
  case ok region =>
    simp only at h
    split at h
    · simp only [Except.error.injEq] at h
      exact Or.inr (Or.inl h.symm)
    · cases h2 : memSet mem region.offset data <;> rw [h2] at h
      · simp_all
      · simp only at h
        unfold set_region at h
        cases h3 : memSet _ ptr
            (encodeRegion { region with length := data.length % 4294967296 }) <;>
          rw [h3] at h <;> simp_all

/-- C1: the claim asserts read_region and write_region validate the fetched
descriptor and fail with a RegionInvalid error on a violating descriptor.
The code never calls validate_region: the all-zero descriptor violates the
offset invariant, yet read_region returns the empty buffer and write_region
succeeds. -/
theorem C1_counterexample :
    validate_region (decodeRegion (List.replicate 12 0)) =
      Except.error DispatchError.zeroRegion
    ∧ read_region (List.replicate 12 0) 0 5 = Except.ok []
    ∧ (write_region (List.replicate 12 0) 0 []).1 = Except.ok () := by
  refine ⟨rfl, rfl, rfl⟩

/-- C1 (amended): read_region and write_region perform no Region-invariant
validation at all: no result of either is ever one of the validate_region
errors, so a descriptor violating the invariants is never rejected as
RegionInvalid. -/
theorem C1_transfer_skips_validation (mem : List Nat) (ptr maxl : Nat)
    (data : List Nat) :
    (∀ e, read_region mem ptr maxl = Except.error e → isValidationError e = false)
    ∧ (∀ e, (write_region mem ptr data).1 = Except.error e →
        isValidationError e = false) := by
  constructor
  · intro e he
    rcases read_region_error_cases he with rfl | rfl | rfl <;> rfl
  · intro e he
    rcases write_region_error_cases he with rfl | rfl | rfl <;> rfl

/-- C1 witness: the amended theorem applied at a concrete memory too short
to hold a descriptor. -/
theorem C1_witness :
    isValidationError DispatchError.cannotReadRegion = false :=
  (C1_transfer_skips_validation [] 0 0 []).1 DispatchError.cannotReadRegion rfl

/-- C3: validate_region accepts exactly when offset is nonzero, length is at
most capacity and capacity is at most u32::MAX minus offset; the three
checks happen in that order, the first violation is reported; descriptors
whose offset plus capacity overflows 32 bits are rejected; the two boundary
descriptors are accepted. -/
theorem C3_validate_region_characterization (r : Region)
    (h32 : r.offset < 4294967296 ∧ r.capacity < 4294967296 ∧
      r.length < 4294967296) :
    (validate_region r = Except.ok () ↔
      (r.offset ≠ 0 ∧ r.length ≤ r.capacity ∧
        r.capacity ≤ 4294967295 - r.offset))
    ∧ (r.offset = 0 →
        validate_region r = Except.error DispatchError.zeroRegion)
    ∧ (r.offset ≠ 0 → r.capacity < r.length →
        validate_region r = Except.error DispatchError.regionLengthExceedsCapacity)
    ∧ (r.offset ≠ 0 → r.length ≤ r.capacity →
        4294967295 - r.offset < r.capacity →
        validate_region r = Except.error DispatchError.regionOutOfRange)
    ∧ (4294967296 ≤ r.offset + r.capacity → validate_region r ≠ Except.ok ())
    ∧ validate_region { offset := 4294967295, capacity := 0, length := 0 } =
        Except.ok ()
    ∧ validate_region { offset := 1, capacity := 4294967294, length := 0 } =
        Except.ok () := by
  obtain ⟨ho, hc, hl⟩ := h32
  refine ⟨?_, ?_, ?_, ?_, ?_, rfl, rfl⟩
  · unfold validate_region
    split_ifs with h1 h2 h3
    · simp only [reduceCtorEq, false_iff]
      omega
    · simp only [reduceCtorEq, false_iff]
      omega
    · simp only [reduceCtorEq, false_iff]
      omega
    · simp only [eq_self_iff_true, true_iff]
      omega
  · intro hz
    unfold validate_region
    rw [if_pos hz]
  · intro hz hL
    unfold validate_region
    split_ifs <;> first | rfl | omega
  · intro hz hL hC
    unfold validate_region
    split_ifs <;> first | rfl | omega
  · intro hov
    unfold validate_region
    split_ifs <;> first | (exfalso; omega) | simp

/-- C3 witness: the characterization applied at a concrete valid region. -/
theorem C3_witness :
    validate_region { offset := 23, capacity := 500, length := 250 } =
      Except.ok () :=
  ((C3_validate_region_characterization ⟨23, 500, 250⟩
    (by refine ⟨?_, ?_, ?_⟩ <;> decide)).1).mpr (by refine ⟨?_, ?_, ?_⟩ <;> decide)

/-- C9: Binary.to_array succeeds exactly when the byte vector has the
requested length, returning those bytes in order, and fails with the
length-mismatch error otherwise. -/
theorem C9_to_array_length_check (b : Binary) (n : Nat) :
    (b.bytes.length = n → Binary.to_array b n = Except.ok b.bytes)
    ∧ (b.bytes.length ≠ n →
        Binary.to_array b n = Except.error DispatchError.lengthMismatch)
    ∧ ∀ a, Binary.to_array b n = Except.ok a ↔
        (b.bytes.length = n ∧ a = b.bytes) := by
  have hok : b.bytes.length = n → Binary.to_array b n = Except.ok b.bytes := by
    intro h
    subst h
    unfold Binary.to_array copyFromSlice
    simp only [ne_eq, not_true_eq_false, if_false, ite_false]
    rw [List.length_replicate, List.take_length]
    rw [show (List.replicate b.bytes.length (0 : Nat)).drop b.bytes.length = [] by
      simp]
    simp
  have herr : b.bytes.length ≠ n →
      Binary.to_array b n = Except.error DispatchError.lengthMismatch := by
    intro h
    unfold Binary.to_array
    simp [h]
  refine ⟨hok, herr, ?_⟩
  intro a
  constructor
  · intro h
    by_cases hlen : b.bytes.length = n
    · rw [hok hlen] at h
      simp only [Except.ok.injEq] at h
      exact ⟨hlen, h.symm⟩
    · rw [herr hlen] at h
      cases h
  · rintro ⟨hlen, rfl⟩
    exact hok hlen

/-- C9 witness: to_array at the documented three-byte example. -/
theorem C9_witness :
    Binary.to_array { bytes := [251, 31, 55] } 3 = Except.ok [251, 31, 55] :=
  (C9_to_array_length_check { bytes := [251, 31, 55] } 3).1 rfl

/-- C10: Addr.unchecked performs no validation and preserves its input
verbatim, so the Addr type carries no well-formedness guarantee. -/
theorem C10_addr_unchecked_identity (s : String) :
    (Addr.unchecked s).as_str = s := rfl

theorem read_region_eq_of_fetch {mem : List Nat} {ptr : Nat} {r : Region}
    (hf : get_region mem ptr = Except.ok r) (maxl : Nat) :
    read_region mem ptr maxl =
      if r.length > maxl % 4294967296 then
        Except.error DispatchError.regionTooBig
      else
        match memGet mem r.offset r.length with
        | some data => Except.ok data
        | none => Except.error DispatchError.couldNotExtractRegion := by
  unfold read_region
  rw [hf]

theorem write_region_eq_of_fetch {mem : List Nat} {ptr : Nat} {r : Region}
    (hf : get_region mem ptr = Except.ok r) (data : List Nat) :
    write_region mem ptr data =
      if data.length > r.capacity then
        (Except.error DispatchError.memoryRegionTooSmall, mem)
      else
        match memSet mem r.offset data with
        | none => (Except.error DispatchError.couldNotExtractRegion, mem)
        | some mem1 =>
          match set_region mem1 ptr
              { r with length := data.length % 4294967296 } with
          | Except.ok mem2 => (Except.ok (), mem2)
          | Except.error e => (Except.error e, mem1) := by
  unfold write_region
  rw [hf]

theorem read_region_tr_eq_of_fetch {mem : List Nat} {ptr : Nat} {bs : List Nat}
    (hget : memGet mem ptr 12 = some bs) (maxl : Nat) :
    read_region_tr mem ptr maxl =
      if (decodeRegion bs).length > maxl % 4294967296 then
        (Except.error DispatchError.regionTooBig, [MemAccess.get ptr 12])
      else
        match memGet mem (decodeRegion bs).offset (decodeRegion bs).length with
        | some data =>
          (Except.ok data,
            [MemAccess.get ptr 12,
              MemAccess.get (decodeRegion bs).offset (decodeRegion bs).length])
        | none =>
          (Except.error DispatchError.couldNotExtractRegion,
            [MemAccess.get ptr 12,
              MemAccess.get (decodeRegion bs).offset (decodeRegion bs).length]) := by
  unfold read_region_tr
  rw [hget]

theorem write_region_tr_eq_of_fetch {mem : List Nat} {ptr : Nat} {bs : List Nat}
    (hget : memGet mem ptr 12 = some bs) (data : List Nat) :
    write_region_tr mem ptr data =
      if data.length > (decodeRegion bs).capacity then
        ((Except.error DispatchError.memoryRegionTooSmall, mem),
          [MemAccess.get ptr 12])
      else
        match memSet mem (decodeRegion bs).offset data with
        | none =>
          ((Except.error DispatchError.couldNotExtractRegion, mem),
            [MemAccess.get ptr 12,
              MemAccess.set (decodeRegion bs).offset data.length])
        | some mem1 =>
          match memSet mem1 ptr
              (encodeRegion
                { decodeRegion bs with length := data.length % 4294967296 }) with
          | some mem2 =>
            ((Except.ok (), mem2),
              [MemAccess.get ptr 12,
                MemAccess.set (decodeRegion bs).offset data.length,
                MemAccess.set ptr 12])
          | none =>
            ((Except.error DispatchError.cannotReadRegion, mem1),
              [MemAccess.get ptr 12,
                MemAccess.set (decodeRegion bs).offset data.length,
                MemAccess.set ptr 12]) := by
  unfold write_region_tr
  rw [hget]

/-- C2: once the descriptor is fetched, read_region fails with the
region-too-big error exactly when the descriptor length exceeds the
caller-supplied ceiling (a usize, below 2^32 on the wasm target), and in
that case the only memory access performed is the 12-byte descriptor
fetch: no region bytes are copied. -/
theorem C2_read_region_max_length (mem : List Nat) (ptr maxl : Nat) (r : Region)
    (hf : get_region mem ptr = Except.ok r) (hm : maxl < 4294967296) :
    (read_region mem ptr maxl = Except.error DispatchError.regionTooBig ↔
      maxl < r.length)
    ∧ (maxl < r.length →
        read_region_tr mem ptr maxl =
          (Except.error DispatchError.regionTooBig, [MemAccess.get ptr 12])) := by
  obtain ⟨hb, hr⟩ := get_region_some_iff.mp hf
  have hget := memGet_eq_some hb
  have hmm : maxl % 4294967296 = maxl := Nat.mod_eq_of_lt hm
  constructor
  · rw [read_region_eq_of_fetch hf maxl, hmm]
    constructor
    · intro h
      by_contra hnot
      rw [if_neg (by omega)] at h
      cases h2 : memGet mem r.offset r.length <;> rw [h2] at h <;> simp_all
    · intro h
      rw [if_pos (by omega)]
  · intro hlt
    rw [read_region_tr_eq_of_fetch hget maxl, ← hr, hmm, if_pos (by omega)]

/-- C2 witness: ceiling 3 against a descriptor of length 4. -/
theorem C2_witness :
    read_region [12, 0, 0, 0, 4, 0, 0, 0, 4, 0, 0, 0, 1, 2, 3, 4] 0 3 =
      Except.error DispatchError.regionTooBig :=
  ((C2_read_region_max_length [12, 0, 0, 0, 4, 0, 0, 0, 4, 0, 0, 0, 1, 2, 3, 4]
    0 3 { offset := 12, capacity := 4, length := 4 } rfl (by omega)).1).mpr
    (by decide)

/-- C5: once the descriptor is fetched, if the data is longer than the
descriptor capacity, write_region fails with the region-too-small error and
guest memory is left entirely unchanged: the only access performed is the
descriptor fetch, so the stored descriptor (its length field included)
keeps its prior value. -/
theorem C5_write_region_capacity (mem : List Nat) (ptr : Nat) (data : List Nat)
    (r : Region) (hf : get_region mem ptr = Except.ok r)
    (hcap : r.capacity < data.length) :
    write_region mem ptr data =
      (Except.error DispatchError.memoryRegionTooSmall, mem)
    ∧ write_region_tr mem ptr data =
        ((Except.error DispatchError.memoryRegionTooSmall, mem),
          [MemAccess.get ptr 12]) := by
  obtain ⟨hb, hr⟩ := get_region_some_iff.mp hf
  have hget := memGet_eq_some hb
  constructor
  · rw [write_region_eq_of_fetch hf data, if_pos (by omega)]
  · rw [write_region_tr_eq_of_fetch hget data, ← hr, if_pos (by omega)]

/-- C5 witness: five bytes against a capacity-four region. -/
theorem C5_witness :
    write_region [12, 0, 0, 0, 4, 0, 0, 0, 4, 0, 0, 0, 1, 2, 3, 4] 0
        [9, 9, 9, 9, 9] =
      (Except.error DispatchError.memoryRegionTooSmall,
        [12, 0, 0, 0, 4, 0, 0, 0, 4, 0, 0, 0, 1, 2, 3, 4]) :=
  (C5_write_region_capacity [12, 0, 0, 0, 4, 0, 0, 0, 4, 0, 0, 0, 1, 2, 3, 4]
    0 [9, 9, 9, 9, 9] { offset := 12, capacity := 4, length := 4 } rfl
    (by decide)).1

/-- C7: a successful read_region returns a buffer of exactly the descriptor
length whose entries are the memory bytes starting at the descriptor
offset; if that copy exceeds the memory bounds the call fails with the
out-of-bounds-read error; and read_region performs no set access against
guest memory, on success or on failure. -/
theorem C7_read_region_success_shape (mem : List Nat) (ptr maxl : Nat)
    (hm : maxl < 4294967296) :
    (∀ r, get_region mem ptr = Except.ok r →
      (∀ bs, read_region mem ptr maxl = Except.ok bs →
        bs.length = r.length ∧
          ∀ i, i < r.length → bs.getD i 0 = mem.getD (r.offset + i) 0)
      ∧ (r.length ≤ maxl → mem.length < r.offset + r.length →
          read_region mem ptr maxl =
            Except.error DispatchError.couldNotExtractRegion))
    ∧ ∀ a ∈ (read_region_tr mem ptr maxl).2, a.isGet = true := by
  have hmm : maxl % 4294967296 = maxl := Nat.mod_eq_of_lt hm
  constructor
  · intro r hf
    constructor
    · intro bs hok
      rw [read_region_eq_of_fetch hf maxl, hmm] at hok
      split at hok
      · cases hok
      · cases h2 : memGet mem r.offset r.length <;> rw [h2] at hok
        · cases hok
        · simp only [Except.ok.injEq] at hok
          subst hok
          obtain ⟨hle, rfl⟩ := memGet_some_iff.mp h2
          constructor
          · simp only [List.length_take, List.length_drop]
            omega
          · intro i hi
            rw [List.getD_eq_getElem?_getD, List.getD_eq_getElem?_getD]
            rw [List.getElem?_take, if_pos hi, List.getElem?_drop]
    · intro hlen hoob
      rw [read_region_eq_of_fetch hf maxl, hmm, if_neg (by omega)]
      have hnone : memGet mem r.offset r.length = none := by
        unfold memGet
        rw [if_neg (by omega)]
      rw [hnone]
  · cases hget : memGet mem ptr 12 with
    | none =>
      unfold read_region_tr
      rw [hget]
      intro a ha
      simp only [List.mem_singleton] at ha
      subst ha
      rfl
    | some bs =>
      rw [read_region_tr_eq_of_fetch hget maxl]
      split
      · intro a ha
        simp only [List.mem_singleton] at ha
        subst ha
        rfl
      · cases h2 : memGet mem (decodeRegion bs).offset (decodeRegion bs).length <;>
          dsimp only <;> intro a ha <;>
          simp only [List.mem_cons, List.mem_singleton, List.not_mem_nil,
            or_false] at ha <;>
          rcases ha with rfl | rfl <;> rfl

theorem take_drop_congr {m1 m2 : List Nat} {off n : Nat}
    (h : ∀ i, i < n → m2[off + i]? = m1[off + i]?) :
    (m2.drop off).take n = (m1.drop off).take n := by
  apply List.ext_getElem?
  intro j
  rw [List.getElem?_take, List.getElem?_take]
  split
  · rw [List.getElem?_drop, List.getElem?_drop]
    exact h j (by assumption)
  · rfl

theorem write_region_success_inv {mem : List Nat} {ptr : Nat} {data : List Nat}
    {r : Region} (hf : get_region mem ptr = Except.ok r)
    (hok : (write_region mem ptr data).1 = Except.ok ()) :
    data.length ≤ r.capacity ∧
      ∃ mem1,
        memSet mem r.offset data = some mem1 ∧
        memSet mem1 ptr
            (encodeRegion { r with length := data.length % 4294967296 }) =
          some (write_region mem ptr data).2 := by
  rw [write_region_eq_of_fetch hf data] at hok ⊢
  by_cases hcap : data.length > r.capacity
  · rw [if_pos hcap] at hok
    cases hok
  · rw [if_neg hcap] at hok ⊢
    cases h1 : memSet mem r.offset data with
    | none =>
      rw [h1] at hok
      dsimp only at hok
      cases hok
    | some mem1 =>
      rw [h1] at hok
      dsimp only at hok ⊢
      unfold set_region at hok ⊢
      cases h2 : memSet mem1 ptr
          (encodeRegion { r with length := data.length % 4294967296 }) with
      | none =>
        rw [h2] at hok
        dsimp only at hok
        cases hok
      | some mem2 =>
        exact ⟨by omega, mem1, rfl, h2⟩

/-- C4: the claim asserts the round trip for every well-formed in-bounds
descriptor of sufficient capacity.  It fails when the descriptor overlaps
its own buffer: here the descriptor at pointer 0 (offset 1, capacity 3)
passes validation, is in bounds, and has enough capacity, the write of
three bytes succeeds, yet reading back returns the bytes of the
written-back descriptor, not the data. -/
theorem C4_counterexample :
    validate_region { offset := 1, capacity := 3, length := 0 } = Except.ok ()
    ∧ get_region [1, 0, 0, 0, 3, 0, 0, 0, 0, 0, 0, 0, 0, 0, 0, 0] 0 =
        Except.ok { offset := 1, capacity := 3, length := 0 }
    ∧ (write_region [1, 0, 0, 0, 3, 0, 0, 0, 0, 0, 0, 0, 0, 0, 0, 0] 0
        [9, 9, 9]).1 = Except.ok ()
    ∧ read_region
        (write_region [1, 0, 0, 0, 3, 0, 0, 0, 0, 0, 0, 0, 0, 0, 0, 0] 0
          [9, 9, 9]).2 0 3 = Except.ok [0, 0, 0]
    ∧ ([0, 0, 0] : List Nat) ≠ [9, 9, 9] := by
  exact ⟨rfl, rfl, rfl, rfl, by decide⟩

/-- C4 (amended): the round trip holds whenever the descriptor's 12 bytes
at the pointer are disjoint from the written byte range: if write_region
succeeds, read_region with a ceiling of at least the data length returns
exactly the written bytes. -/
theorem C4_roundtrip_disjoint (mem : List Nat) (ptr maxl : Nat) (B : List Nat)
    (r : Region) (hmem : Mem8 mem) (hf : get_region mem ptr = Except.ok r)
    (hdisj : r.offset + B.length ≤ ptr ∨ ptr + 12 ≤ r.offset)
    (hmax : B.length ≤ maxl) (hm : maxl < 4294967296)
    (hok : (write_region mem ptr B).1 = Except.ok ()) :
    read_region (write_region mem ptr B).2 ptr maxl = Except.ok B := by
  obtain ⟨hcap, mem1, h1, h2⟩ := write_region_success_inv hf hok
  obtain ⟨ho32, hc32, hl32⟩ := get_region_fields_lt hmem hf
  have hB32 : B.length < 4294967296 := by omega
  have hBmod : B.length % 4294967296 = B.length := Nat.mod_eq_of_lt hB32
  have hmm : maxl % 4294967296 = maxl := Nat.mod_eq_of_lt hm
  have henc12 : (encodeRegion
      { r with length := B.length % 4294967296 }).length = 12 := rfl
  have hlen2 : ((write_region mem ptr B).2).length = mem.length := by
    rw [memSet_length h2, memSet_length h1]
  have hb1 : r.offset + B.length ≤ mem.length := (memSet_some_iff.mp h1).1
  have hf2 : get_region (write_region mem ptr B).2 ptr =
      Except.ok { r with length := B.length % 4294967296 } := by
    rw [get_region_some_iff]
    refine ⟨?_, ?_⟩
    · rw [hlen2]
      exact (get_region_some_iff.mp hf).1
    · have hrb := memSet_read_back h2
      rw [henc12] at hrb
      rw [hrb, decode_encode_region] <;> simp only
      · exact ho32
      · exact hc32
      · omega
  rw [read_region_eq_of_fetch hf2 maxl]
  simp only [hBmod, hmm]
  rw [if_neg (by omega)]
  have hsame : ∀ i, i < B.length →
      ((write_region mem ptr B).2)[r.offset + i]? = mem1[r.offset + i]? := by
    intro i hi
    apply memSet_getElem?_outside h2
    rw [henc12]
    omega
  have hgot : memGet (write_region mem ptr B).2 r.offset B.length =
      some ((((write_region mem ptr B).2).drop r.offset).take B.length) := by
    apply memGet_eq_some
    omega
  rw [hgot, take_drop_congr hsame, memSet_read_back h1]

/-- C4 witness: the amended round trip at a concrete memory whose
descriptor and buffer are disjoint. -/
theorem C4_witness :
    read_region
      (write_region [12, 0, 0, 0, 4, 0, 0, 0, 0, 0, 0, 0, 0, 0, 0, 0] 0
        [5, 6, 7]).2 0 3 = Except.ok [5, 6, 7] :=
  C4_roundtrip_disjoint [12, 0, 0, 0, 4, 0, 0, 0, 0, 0, 0, 0, 0, 0, 0, 0] 0 3
    [5, 6, 7] { offset := 12, capacity := 4, length := 0 } (by decide) rfl
    (Or.inr (by decide)) (by decide) (by decide) rfl

/-- C6: the claim asserts that after every successful write_region the
buffer bytes equal the data.  With the descriptor overlapping its own
buffer the write succeeds but the final descriptor write-back clobbers the
data bytes. -/
theorem C6_counterexample :
    (write_region [1, 0, 0, 0, 3, 0, 0, 0, 0, 0, 0, 0, 0, 0, 0, 0] 0
      [8, 8, 8]).1 = Except.ok ()
    ∧ memGet
        (write_region [1, 0, 0, 0, 3, 0, 0, 0, 0, 0, 0, 0, 0, 0, 0, 0] 0
          [8, 8, 8]).2 1 3 = some [0, 0, 0]
    ∧ ([0, 0, 0] : List Nat) ≠ [8, 8, 8] := by
  exact ⟨rfl, rfl, by decide⟩

/-- C6 (amended): on every successful write_region, the memory keeps its
size, the descriptor written back at the pointer has the written length
with offset and capacity unchanged, every location outside the descriptor
bytes and the data range is unmodified, and — whenever the descriptor bytes
are disjoint from the data range — the data range holds exactly the data. -/
theorem C6_write_region_effects (mem : List Nat) (ptr : Nat) (data : List Nat)
    (r : Region) (hmem : Mem8 mem) (hf : get_region mem ptr = Except.ok r)
    (hok : (write_region mem ptr data).1 = Except.ok ()) :
    ((write_region mem ptr data).2).length = mem.length
    ∧ get_region (write_region mem ptr data).2 ptr =
        Except.ok
          { offset := r.offset, capacity := r.capacity, length := data.length }
    ∧ (∀ i, (i < ptr ∨ ptr + 12 ≤ i) →
        (i < r.offset ∨ r.offset + data.length ≤ i) →
        ((write_region mem ptr data).2)[i]? = mem[i]?)
    ∧ ((r.offset + data.length ≤ ptr ∨ ptr + 12 ≤ r.offset) →
        ∀ i, i < data.length →
          ((write_region mem ptr data).2)[r.offset + i]? = data[i]?) := by
  obtain ⟨hcap, mem1, h1, h2⟩ := write_region_success_inv hf hok
  obtain ⟨ho32, hc32, hl32⟩ := get_region_fields_lt hmem hf
  have hd32 : data.length < 4294967296 := by omega
  have hdmod : data.length % 4294967296 = data.length := Nat.mod_eq_of_lt hd32
  have henc12 : (encodeRegion
      { r with length := data.length % 4294967296 }).length = 12 := rfl
  have hlen2 : ((write_region mem ptr data).2).length = mem.length := by
    rw [memSet_length h2, memSet_length h1]
  refine ⟨hlen2, ?_, ?_, ?_⟩
  · rw [get_region_some_iff]
    refine ⟨?_, ?_⟩
    · rw [hlen2]
      exact (get_region_some_iff.mp hf).1
    · have hrb := memSet_read_back h2
      rw [henc12] at hrb
      rw [hrb, decode_encode_region] <;> simp only [hdmod]
      · exact ho32
      · exact hc32
      · omega
  · intro i hi1 hi2
    have ha : ((write_region mem ptr data).2)[i]? = mem1[i]? := by
      apply memSet_getElem?_outside h2
      rw [henc12]
      omega
    rw [ha]
    exact memSet_getElem?_outside h1 hi2
  · intro hdisj i hi
    have ha : ((write_region mem ptr data).2)[r.offset + i]? =
        mem1[r.offset + i]? := by
      apply memSet_getElem?_outside h2
      rw [henc12]
      omega
    rw [ha]
    exact memSet_getElem?_inside h1 hi

/-- C6 witness: the amended effects at a concrete disjoint write, read via
the written-back descriptor. -/
theorem C6_witness :
    get_region
      (write_region [12, 0, 0, 0, 4, 0, 0, 0, 0, 0, 0, 0, 0, 0, 0, 0] 0
        [7, 7]).2 0 =
      Except.ok { offset := 12, capacity := 4, length := 2 } :=
  (C6_write_region_effects [12, 0, 0, 0, 4, 0, 0, 0, 0, 0, 0, 0, 0, 0, 0, 0] 0
    [7, 7] { offset := 12, capacity := 4, length := 0 } (by decide) rfl
    rfl).2.1

/-- C7 witness: a validated descriptor pointing past the end of a 12-byte
memory makes the copy fail with the out-of-bounds-read error. -/
theorem C7_witness :
    read_region [16, 0, 0, 0, 4, 0, 0, 0, 4, 0, 0, 0] 0 4 =
      Except.error DispatchError.couldNotExtractRegion :=
  (((C7_read_region_success_shape [16, 0, 0, 0, 4, 0, 0, 0, 4, 0, 0, 0] 0 4
    (by omega)).1 { offset := 16, capacity := 4, length := 4 } rfl).2)
    (by decide) (by decide)

theorem b64_code_dec : ∀ s, s < 64 → b64DecCode (b64Code s) = some s := by
  decide

theorem b64_code_ne_pad : ∀ s, s < 64 → b64Code s ≠ 61 := by
  decide

theorem b64_decode_encode : ∀ b : List Nat, (∀ x ∈ b, x < 256) →
    b64Decode (b64Encode b) = some b := by
  intro b
  induction b using b64Encode.induct with
  | case1 a c d rest ih =>
    intro hb
    have ha : a < 256 := hb a (by simp)
    have hc : c < 256 := hb c (by simp)
    have hd : d < 256 := hb d (by simp)
    have hrest : ∀ x ∈ rest, x < 256 := by
      intro x hx
      exact hb x (by simp [hx])
    have h1 := b64_code_dec (a / 4) (by omega)
    have h2 := b64_code_dec (a % 4 * 16 + c / 16) (by omega)
    have h3 := b64_code_dec (c % 16 * 4 + d / 64) (by omega)
    have h4 := b64_code_dec (d % 64) (by omega)
    have n3 := b64_code_ne_pad (c % 16 * 4 + d / 64) (by omega)
    have n4 := b64_code_ne_pad (d % 64) (by omega)
    simp only [b64Encode, b64Decode]
    rw [h1, h2]
    dsimp only
    rw [if_neg n3, h3]
    dsimp only
    rw [if_neg n4, h4]
    dsimp only
    rw [ih hrest]
    dsimp only
    simp only [Option.some.injEq, List.cons.injEq, and_true, true_and]
    refine ⟨?_, ?_, ?_⟩ <;> omega
  | case2 a c =>
    intro hb
    have ha : a < 256 := hb a (by simp)
    have hc : c < 256 := hb c (by simp)
    have h1 := b64_code_dec (a / 4) (by omega)
    have h2 := b64_code_dec (a % 4 * 16 + c / 16) (by omega)
    have h3 := b64_code_dec (c % 16 * 4) (by omega)
    have n3 := b64_code_ne_pad (c % 16 * 4) (by omega)
    simp only [b64Encode, b64Decode]
    rw [h1, h2]
    dsimp only
    rw [if_neg n3, h3]
    dsimp only
    rw [if_pos trivial, if_pos trivial, if_pos (by omega)]
    simp only [Option.some.injEq, List.cons.injEq, and_true, true_and]
    refine ⟨?_, ?_⟩ <;> omega
  | case3 a =>
    intro hb
    have ha : a < 256 := hb a (by simp)
    have h1 := b64_code_dec (a / 4) (by omega)
    have h2 := b64_code_dec (a % 4 * 16) (by omega)
    simp only [b64Encode, b64Decode]
    rw [h1, h2]
    dsimp only
    rw [if_pos trivial, if_pos ⟨trivial, trivial⟩, if_pos (by omega)]
    simp only [Option.some.injEq, List.cons.injEq, and_true, true_and]
    omega
  | case4 =>
    intro _
    rfl

/-- C8: base64 round trip: for every byte sequence, decoding the encoding
returns exactly the original Binary, and a string that is not valid base64
is rejected with the invalid-base64 error (the code 33 is the exclamation
mark). -/
theorem C8_base64_roundtrip (b : List Nat) (hb : ∀ x ∈ b, x < 256) :
    Binary.from_base64 (Binary.to_base64 { bytes := b }) =
      Except.ok { bytes := b }
    ∧ Binary.from_base64 [33] = Except.error DispatchError.invalidBase64 := by
  constructor
  · unfold Binary.from_base64 Binary.to_base64
    rw [b64_decode_encode b hb]
  · rfl

/-- C8 witness: the round trip at the documented three-byte example. -/
theorem C8_witness :
    Binary.from_base64 (Binary.to_base64 { bytes := [251, 31, 55] }) =
      Except.ok { bytes := [251, 31, 55] } :=
  (C8_base64_roundtrip [251, 31, 55] (by decide)).1

end Substrate
